import Mathlib

/-!
Verification of the job-scheduler control-plane design of this repository
(trigger dispatch, watch-subscription registry, failure-policy retry engine)
and of the HTTP error responder `respondWithError` in
`pkg/api/http/responses.go`.

The scheduler implementation itself (job store, connection pool, dispatch
loop, failure-policy engine) is not among the provided sources — only its
integration test (`tests/integration/suite/scheduler/failurepolicy/noset/
failsecond.go`), the v1.15.4 release note on connection-pool pruning, and
the deployment chart are.  The scheduler definitions below are therefore
modelled from the specification; `respondWithError` and its helpers are
embedded directly from `pkg/api/http/responses.go`.

Times are modelled as natural numbers; payloads as byte lists.
-/

set_option maxHeartbeats 1000000

namespace DaprScheduler

/-- Modelled from the spec (§3 Data Model): a job is uniquely identified by
(namespace, application identity, job name). -/
structure JobKey where
  ns : String
  appID : String
  name : String
deriving DecidableEq, Repr

/-- Modelled from the spec (§3, §4.2): the connection-pool/registry key is
(namespace, application identity). -/
structure ConnKey where
  ns : String
  appID : String
deriving DecidableEq, Repr

/-- The registry key that triggers for a given job are routed through. -/
def JobKey.connKey (k : JobKey) : ConnKey := ⟨k.ns, k.appID⟩

/-- Modelled from the spec (§3): a schedule is a single due timestamp or a
repeating interval with an optional remaining-occurrence count
(`none` = unlimited).  Cron grammar and TTL are out of the spec's scope. -/
inductive JobSchedule where
  | oneShot (due : Nat)
  | repeating (interval : Nat) (repeats : Option Nat)
deriving DecidableEq, Repr

/-- Modelled from the spec (§4.4): recognized failure policies.  `unset` is
the default policy (retry indefinitely at a fixed interval); `drop` removes
the job on any failure; `constant` redelivers after a fixed delay up to a
bounded retry count, then drops. -/
inductive FailurePolicy where
  | unset
  | drop
  | constant (interval : Nat) (maxRetries : Nat)
deriving DecidableEq, Repr

/-- Modelled from the spec (§9 Design Notes, open question): the redelivery
interval for the default failure policy is operator-configurable; any fixed
positive value works for the properties proved here. -/
def defaultRetryInterval : Nat := 1

/-- Modelled from the spec (§3): a durable job record.  The failure-retry
attempt counter is part of the record (it persists across failovers), and
`idx` is the insertion index used to break due-time ties. -/
structure Job where
  key : JobKey
  schedule : JobSchedule
  payload : List Nat
  policy : FailurePolicy
  due : Nat
  attempts : Nat
  idx : Nat
deriving DecidableEq, Repr

/-- Modelled from the spec (§6): the content of a `ScheduleJob` request. -/
structure JobReq where
  key : JobKey
  schedule : JobSchedule
  payload : List Nat
  policy : FailurePolicy
deriving DecidableEq, Repr

/-- Modelled from the spec (§4.1): schedule validation at intake.  A
repeating schedule whose repeat budget is already elapsed (zero repeats)
is malformed. -/
def JobSchedule.valid : JobSchedule → Bool
  | .oneShot _ => true
  | .repeating _ (some 0) => false
  | .repeating _ _ => true

/-- First due time derived from a schedule. -/
def JobSchedule.initialDue : JobSchedule → Nat
  | .oneShot d => d
  | .repeating iv _ => iv

/-- The job record created for a request, at insertion index `idx`. -/
def mkJob (req : JobReq) (idx : Nat) : Job :=
  ⟨req.key, req.schedule, req.payload, req.policy, req.schedule.initialDue, 0, idx⟩

/-- Modelled from the spec (§4.1, §7): job-store error taxonomy for the
write path. -/
inductive StoreError where
  | invalidSchedule
  | notLeader
deriving DecidableEq, Repr

/-- Modelled from the spec (§4.1): the durable job table.  `jobs` is kept in
insertion order, `nextIdx` is the next insertion index, `isLeader` records
whether this replica is the elected leader. -/
structure JobStore where
  jobs : List Job
  nextIdx : Nat
  isLeader : Bool
deriving DecidableEq, Repr

/-- Whether a job record carries key `k`. -/
def keyIs (k : JobKey) (j : Job) : Bool :=
  j.key == k

/-- Look up the job record for a key. -/
def JobStore.findJob (st : JobStore) (k : JobKey) : Option Job :=
  st.jobs.find? (keyIs k)

/-- Replace-in-place function for an overwrite of the record at
`req.key`, keeping insertion index `idx`. -/
def upsertJob (req : JobReq) (idx : Nat) (j : Job) : Job :=
  if keyIs req.key j then mkJob req idx else j

/-- Modelled from the spec (§4.1): `Schedule(job)` inserts or replaces a job
by key; fails with `InvalidSchedule` on a malformed schedule and with
`NotLeader` on a non-leader replica.  Replacing keeps the original
insertion index. -/
def JobStore.schedule (st : JobStore) (req : JobReq) : Except StoreError JobStore :=
  if st.isLeader = false then .error .notLeader
  else if req.schedule.valid = false then .error .invalidSchedule
  else match st.findJob req.key with
    | some old =>
        .ok { st with jobs := st.jobs.map (upsertJob req old.idx) }
    | none =>
        .ok { st with jobs := st.jobs ++ [mkJob req st.nextIdx], nextIdx := st.nextIdx + 1 }

/-- Modelled from the spec (§4.1): `Delete(key)` removes a job; deleting a
non-existent job is not an error; non-leader replicas reject. -/
def JobStore.delete (st : JobStore) (k : JobKey) : Except StoreError JobStore :=
  if st.isLeader = false then .error .notLeader
  else .ok { st with jobs := st.jobs.filter (fun j => j.key != k) }

/-- Modelled from the spec (§4.1): `MarkTriggered(key, nextDue | remove)`
atomically advances (`some d`) or removes (`none`) a job after a dispatch
decision; non-leader replicas reject. -/
def JobStore.markTriggered (st : JobStore) (k : JobKey) (next : Option Nat) :
    Except StoreError JobStore :=
  if st.isLeader = false then .error .notLeader
  else match next with
    | some d => .ok { st with jobs := st.jobs.map (fun j => if j.key == k then { j with due := d } else j) }
    | none => .ok { st with jobs := st.jobs.filter (fun j => j.key != k) }

/-- The due-time order used by `NextDue`: ascending due time, ties broken by
insertion index. -/
def jobLE (a b : Job) : Prop :=
  a.due < b.due ∨ (a.due = b.due ∧ a.idx ≤ b.idx)

instance : DecidableRel jobLE := fun a b => by unfold jobLE; exact inferInstance

instance : IsTotal Job jobLE where
  total a b := by
    rcases Nat.lt_trichotomy a.due b.due with h | h | h
    · exact Or.inl (Or.inl h)
    · rcases Nat.le_total a.idx b.idx with hi | hi
      · exact Or.inl (Or.inr ⟨h, hi⟩)
      · exact Or.inr (Or.inr ⟨h.symm, hi⟩)
    · exact Or.inr (Or.inl h)

instance : IsTrans Job jobLE where
  trans a b c hab hbc := by
    rcases hab with h1 | h1
    · rcases hbc with h2 | h2
      · exact Or.inl (h1.trans h2)
      · exact Or.inl (by rw [← h2.1]; exact h1)
    · rcases hbc with h2 | h2
      · exact Or.inl (by rw [h1.1]; exact h2)
      · exact Or.inr ⟨h1.1.trans h2.1, h1.2.trans h2.2⟩

/-- Modelled from the spec (§4.1): `NextDue(now)` returns the jobs whose due
time is at most `now`, ordered by due time ascending with ties broken by
insertion order. -/
def JobStore.nextDue (st : JobStore) (now : Nat) : List Job :=
  List.insertionSort jobLE (st.jobs.filter (fun j => decide (j.due ≤ now)))

/-- Modelled from the spec (§4.1): the `NextDue` call as seen by the caller —
a read-only query that also hands the (unchanged) store back, since jobs
are returned "without removing them". -/
def JobStore.nextDueCall (st : JobStore) (now : Nat) : List Job × JobStore :=
  (st.nextDue now, st)

/-- Number of job records held for a key. -/
def JobStore.countKey (st : JobStore) (k : JobKey) : Nat :=
  (st.jobs.filter (keyIs k)).length

/-- Replace-in-place function for the record at `k`. -/
def setFun (k : JobKey) (jNew : Job) (j : Job) : Job :=
  if keyIs k j then jNew else j

/-- Engine-internal in-place update of the record at `k` (the leader-only
apply path of `MarkTriggered`/failure-policy updates). -/
def JobStore.setJob (st : JobStore) (k : JobKey) (jNew : Job) : JobStore :=
  { st with jobs := st.jobs.map (setFun k jNew) }

/-- Engine-internal removal of the record at `k`. -/
def JobStore.removeJob (st : JobStore) (k : JobKey) : JobStore :=
  { st with jobs := st.jobs.filter (fun j => !keyIs k j) }

/-- Modelled from the spec (§3, §4.2): one live client connection in the
watch registry.  `closed` is set when the transport detects closure but the
entry has not yet been pruned; `lastActive` drives keep-alive expiry. -/
structure Sub where
  key : ConnKey
  actorTypes : List String
  handle : Nat
  closed : Bool
  lastActive : Nat
deriving DecidableEq, Repr

/-- Modelled from the spec (§6 config surface): the keep-alive timeout after
which an idle entry is considered stale.  Operator-configurable; the chart
ships 3s. -/
def keepAliveTimeout : Nat := 3

/-- An entry is live at `now` when it is not closed and not idle beyond the
keep-alive timeout. -/
def Sub.live (sub : Sub) (now : Nat) : Bool :=
  !sub.closed && decide (now ≤ sub.lastActive + keepAliveTimeout)

/-- Modelled from the spec (§4.2): the watch registry — the shared
connection pool keyed by (namespace, appID). -/
structure Registry where
  subs : List Sub
deriving DecidableEq, Repr

/-- Modelled from the spec (§4.2): `Resolve` returns the live connection
handle for a key, or `none` (`NoSubscriber`).  A closed or expired entry is
never returned. -/
def Registry.resolve (r : Registry) (now : Nat) (k : ConnKey) : Option Nat :=
  (r.subs.find? (fun sub => sub.key == k && sub.live now)).map Sub.handle

/-- Modelled from the spec (§4.2): `Register` binds a key to a fresh live
connection; any prior subscription for the same key is superseded
(removed, never merely shadowed). -/
def Registry.register (r : Registry) (k : ConnKey) (ats : List String) (h now : Nat) : Registry :=
  ⟨⟨k, ats, h, false, now⟩ :: r.subs.filter (fun sub => sub.key != k)⟩

/-- Transport-detected closure: the entry is invalidated (marked closed) but
not yet pruned. -/
def Registry.closeHandle (r : Registry) (h : Nat) : Registry :=
  ⟨r.subs.map (fun sub => if sub.handle == h then { sub with closed := true } else sub)⟩

/-- Modelled from the spec (§4.2): `Prune(handle)` removes the
subscription. -/
def Registry.pruneHandle (r : Registry) (h : Nat) : Registry :=
  ⟨r.subs.filter (fun sub => sub.handle != h)⟩

/-- Modelled from the spec (§4.2): the passive keep-alive sweep removes
every entry that is closed or idle beyond the keep-alive timeout. -/
def Registry.sweep (r : Registry) (now : Nat) : Registry :=
  ⟨r.subs.filter (fun sub => sub.live now)⟩

/-- Every entry for `k` has been invalidated (explicitly closed or expired)
as of `now`. -/
def Registry.invalidated (r : Registry) (k : ConnKey) (now : Nat) : Prop :=
  ∀ sub ∈ r.subs, sub.key = k → sub.live now = false

instance (r : Registry) (k : ConnKey) (now : Nat) : Decidable (r.invalidated k now) := by
  unfold Registry.invalidated; exact inferInstance

/-- Modelled from the spec (§3): the ephemeral record of one outstanding
delivery (`AwaitingResult`): job key, connection handle it was sent on,
and attempt number. -/
structure Attempt where
  jobKey : JobKey
  handle : Nat
  seq : Nat
deriving DecidableEq, Repr

/-- Modelled from the spec (§4.3, §5): the dispatch engine's state — the
job store, the watch registry, and the outstanding trigger attempts. -/
structure EngineState where
  store : JobStore
  registry : Registry
  inflight : List Attempt
deriving DecidableEq, Repr

/-- Job keys with an outstanding (`AwaitingResult`) trigger attempt. -/
def EngineState.inflightKeys (s : EngineState) : List JobKey :=
  s.inflight.map Attempt.jobKey

/-- Modelled from the spec (§4.3): on `SUCCESS`, a repeating job with
remaining occurrences gets its next due time computed forward (and its
retry counter reset); otherwise the job completes and is removed. -/
def Job.nextOnSuccess (j : Job) (now : Nat) : Option Job :=
  match j.schedule with
  | .oneShot _ => none
  | .repeating iv none => some { j with due := now + iv, attempts := 0 }
  | .repeating _ (some 0) => none
  | .repeating _ (some 1) => none
  | .repeating iv (some (n + 2)) =>
      some { j with schedule := .repeating iv (some (n + 1)), due := now + iv, attempts := 0 }

/-- Modelled from the spec (§4.4): the failure-policy decision on a
`FAILED` result — `none` drops the job, `some j` re-enters `Scheduled`
with the new due time and the persisted retry counter advanced. -/
def failurePolicyDecide (j : Job) (now : Nat) : Option Job :=
  match j.policy with
  | .drop => none
  | .unset => some { j with due := now + defaultRetryInterval, attempts := j.attempts + 1 }
  | .constant iv mr =>
      if j.attempts < mr then some { j with due := now + iv, attempts := j.attempts + 1 }
      else none

/-- Modelled from the spec (§4.3, §5): the events driving the combined
state machine — schedule/delete requests, dispatch passes, trigger
results, connection registration, transport-detected closure, explicit
pruning, and the passive keep-alive sweep. -/
inductive Event where
  | scheduleJob (req : JobReq)
  | deleteJob (k : JobKey)
  | dispatch (k : JobKey) (now : Nat)
  | result (k : JobKey) (success : Bool) (now : Nat)
  | register (k : ConnKey) (actorTypes : List String) (handle : Nat) (now : Nat)
  | connError (handle : Nat)
  | pruneConn (handle : Nat)
  | sweep (now : Nat)
deriving DecidableEq, Repr

/-- Modelled from the spec (§4.3, §4.4, §5): one transition of the engine.
Dispatch only runs on the leader, only for a due job with no outstanding
attempt, and only when `Resolve` finds a live subscriber (`NoSubscriber`
defers the job unchanged).  A result is correlated through the outstanding
attempt; `SUCCESS` advances or completes the job, `FAILED` goes through the
failure policy.  Superseding registration and pruning requeue any attempt
in flight to the invalidated handles (the jobs stay in the store, due). -/
def applyEvent (e : Event) (s : EngineState) : EngineState :=
  match e with
  | .scheduleJob req =>
      match s.store.schedule req with
      | .ok st => { s with store := st }
      | .error _ => s
  | .deleteJob k =>
      match s.store.delete k with
      | .ok st => { s with store := st }
      | .error _ => s
  | .dispatch k now =>
      if s.store.isLeader = false then s
      else match s.store.findJob k with
        | none => s
        | some j =>
            if j.due ≤ now ∧ k ∉ s.inflightKeys then
              match s.registry.resolve now k.connKey with
              | some h => { s with inflight := ⟨k, h, j.attempts⟩ :: s.inflight }
              | none => s
            else s
  | .result k success now =>
      if s.store.isLeader = false then s
      else if k ∈ s.inflightKeys then
        let s₁ : EngineState := { s with inflight := s.inflight.filter (fun a => a.jobKey != k) }
        match s.store.findJob k with
        | none => s₁
        | some j =>
            match (if success then j.nextOnSuccess now else failurePolicyDecide j now) with
            | some j₂ => { s₁ with store := s₁.store.setJob k j₂ }
            | none => { s₁ with store := s₁.store.removeJob k }
      else s
  | .register k ats h now =>
      let oldHandles := (s.registry.subs.filter (fun sub => sub.key == k)).map Sub.handle
      { s with registry := s.registry.register k ats h now,
               inflight := s.inflight.filter (fun a => decide (a.handle ∉ oldHandles)) }
  | .connError h =>
      { s with registry := s.registry.closeHandle h }
  | .pruneConn h =>
      { s with registry := s.registry.pruneHandle h,
               inflight := s.inflight.filter (fun a => a.handle != h) }
  | .sweep now =>
      let deadHandles := (s.registry.subs.filter (fun sub => !sub.live now)).map Sub.handle
      { s with registry := s.registry.sweep now,
               inflight := s.inflight.filter (fun a => decide (a.handle ∉ deadHandles)) }

/-- Run a sequence of events from a state. -/
def run (es : List Event) (s : EngineState) : EngineState :=
  es.foldl (fun t e => applyEvent e t) s

/-- The initial engine state of a fresh leader: empty store, empty
registry, nothing in flight. -/
def initState : EngineState :=
  ⟨⟨[], 0, true⟩, ⟨[]⟩, []⟩

/-- Concrete job key used by the witness scenarios (the key of the
`failsecond` integration test). -/
def wKey : JobKey := ⟨"namespace", "appid1", "test"⟩

/-- Concrete registry key of `wKey`. -/
def wConn : ConnKey := ⟨"namespace", "appid1"⟩

/-- Concrete request: a one-shot, immediately due job with the default
(unset) failure policy. -/
def wReq : JobReq := ⟨wKey, .oneShot 0, [1, 2], .unset⟩

/-- Concrete non-leader replica holding one job. -/
def follower : EngineState :=
  ⟨⟨[mkJob wReq 0], 1, false⟩, ⟨[]⟩, []⟩

/-- Concrete leader state holding one due job with no registered
subscriber at all. -/
def noSubState : EngineState :=
  ⟨⟨[mkJob wReq 0], 1, true⟩, ⟨[]⟩, []⟩

/-- Concrete registry holding a single closed-but-not-yet-pruned entry for
`wConn`. -/
def closedReg : Registry :=
  ⟨[⟨wConn, [], 7, true, 0⟩]⟩

/-- Claim C3 conclusion, for a registry `r` whose entries for `k` are all
invalidated as of `now` and any later instant `now₂`: `Resolve` returns
`NoSubscriber`; invalidation persists (at `now₂`) through transport
closes, prunes, keep-alive sweeps and registrations for other keys; a
closed or expired entry is never the value returned by any `Resolve`
call; and a new `Register` for `k` makes `Resolve` succeed again with the
new handle. -/
def ResolveInvalidatedUntilRegister (r : Registry) (k : ConnKey) (now now₂ : Nat) : Prop :=
  r.resolve now k = none ∧
  (∀ h₂ : Nat, (r.closeHandle h₂).invalidated k now₂) ∧
  (∀ h₂ : Nat, (r.pruneHandle h₂).invalidated k now₂) ∧
  (∀ t : Nat, (r.sweep t).invalidated k now₂) ∧
  (∀ (k₂ : ConnKey) (ats : List String) (h₃ t₂ : Nat), k₂ ≠ k →
    (r.register k₂ ats h₃ t₂).invalidated k now₂) ∧
  (∀ (r₂ : Registry) (t h₂ : Nat), r₂.resolve t k = some h₂ →
    ∃ sub ∈ r₂.subs, sub.key = k ∧ sub.handle = h₂ ∧ sub.closed = false ∧
      t ≤ sub.lastActive + keepAliveTimeout) ∧
  (∀ (ats : List String) (h₃ : Nat), (r.register k ats h₃ now₂).resolve now₂ k = some h₃)

/-- The job for `k` is fully gone from the engine: no store record and no
outstanding trigger attempt. -/
def EngineState.jobGone (s : EngineState) (k : JobKey) : Prop :=
  s.store.findJob k = none ∧ k ∉ s.inflightKeys

instance (s : EngineState) (k : JobKey) : Decidable (s.jobGone k) := by
  unfold EngineState.jobGone; exact inferInstance

/-- Whether an event is a `ScheduleJob` request for key `k` (the only event
that can re-create a deleted job). -/
def Event.schedulesKey (e : Event) (k : JobKey) : Bool :=
  match e with
  | .scheduleJob req => req.key == k
  | _ => false

/-- Claim C1 conclusion, for an engine state `s` holding a one-shot job `j`
at key `k` with the default failure policy and an outstanding attempt: a
`FAILED` result re-enters the job (same key, schedule, payload, policy)
scheduled at `now + defaultRetryInterval` with no attempt outstanding, and
dispatching it again once due delivers a fresh trigger attempt; a
`SUCCESS` result removes the job and — absent a new `ScheduleJob` for the
key — no later sequence of events ever re-creates a record or an attempt
for it. -/
def OneShotDefaultPolicyProp (s : EngineState) (k : JobKey) (j : Job) (now : Nat) : Prop :=
  (∃ j₂ : Job,
    (applyEvent (.result k false now) s).store.findJob k = some j₂ ∧
    j₂.due = now + defaultRetryInterval ∧
    j₂.key = j.key ∧ j₂.schedule = j.schedule ∧
    j₂.payload = j.payload ∧ j₂.policy = j.policy ∧
    k ∉ (applyEvent (.result k false now) s).inflightKeys ∧
    (∀ t h : Nat, j₂.due ≤ t →
      (applyEvent (.result k false now) s).registry.resolve t k.connKey = some h →
      (⟨k, h, j₂.attempts⟩ : Attempt)
        ∈ (applyEvent (.dispatch k t) (applyEvent (.result k false now) s)).inflight)) ∧
  ((applyEvent (.result k true now) s).jobGone k ∧
   ∀ es : List Event, (∀ e ∈ es, e.schedulesKey k = false) →
     (run es (applyEvent (.result k true now) s)).jobGone k)

/-- Claim C5 conclusion, for an engine state `s` holding a job `j` at key
`k` with failure policy `Constant(iv, 2)` and an outstanding attempt: as
long as fewer than 2 retries have been consumed, a `FAILED` result re-
enters the job with the persisted counter advanced by one; on the `FAILED`
result that arrives with the counter already at 2 (the third total failed
attempt) the job is dropped, and — absent a new `ScheduleJob` for the key
— no later sequence of events ever re-creates a record or an attempt for
it, so a fourth trigger attempt never occurs. -/
def ConstantPolicyBoundedProp (s : EngineState) (k : JobKey) (j : Job) (iv now : Nat) : Prop :=
  (j.attempts < 2 →
    ∃ j₂ : Job,
      (applyEvent (.result k false now) s).store.findJob k = some j₂ ∧
      j₂.attempts = j.attempts + 1 ∧ j₂.policy = j.policy ∧ j₂.due = now + iv ∧
      j₂.key = j.key ∧
      k ∉ (applyEvent (.result k false now) s).inflightKeys) ∧
  (j.attempts = 2 →
    (applyEvent (.result k false now) s).jobGone k ∧
    ∀ es : List Event, (∀ e ∈ es, e.schedulesKey k = false) →
      (run es (applyEvent (.result k false now) s)).jobGone k)

/-- Claim C4 conclusion, for a superseding registration of connection key
`kc` with new handle `hNew` while attempt `a` (for job `j`) is in flight
to one of the superseded handles: the attempt is no longer outstanding,
the job table is untouched (the trigger is not lost), the key has no
outstanding attempt left, the new handle resolves for the key, and
dispatching the job once due delivers it to the new handle. -/
def RegisterSupersedesProp (s : EngineState) (kc : ConnKey) (ats : List String)
    (hNew now t : Nat) (a : Attempt) (j : Job) : Prop :=
  a ∉ (applyEvent (.register kc ats hNew now) s).inflight ∧
  (applyEvent (.register kc ats hNew now) s).store = s.store ∧
  a.jobKey ∉ (applyEvent (.register kc ats hNew now) s).inflightKeys ∧
  (applyEvent (.register kc ats hNew now) s).registry.resolve t kc = some hNew ∧
  (⟨a.jobKey, hNew, j.attempts⟩ : Attempt)
    ∈ (applyEvent (.dispatch a.jobKey t) (applyEvent (.register kc ats hNew now) s)).inflight

/-- Concrete leader state for the one-shot default-policy scenario: the
`failsecond` job is in the store, a live subscriber is registered on
handle 7, and one trigger attempt is outstanding. -/
def oneShotState : EngineState :=
  ⟨⟨[mkJob wReq 0], 1, true⟩, ⟨[⟨wConn, [], 7, false, 0⟩]⟩, [⟨wKey, 7, 0⟩]⟩

/-- Concrete job with failure policy `Constant(1, 2)` whose retry budget is
already consumed (counter at 2). -/
def wJobC : Job :=
  ⟨wKey, .oneShot 0, [1, 2], .constant 1 2, 0, 2, 0⟩

/-- Concrete leader state for the bounded-policy scenario: the job with
exhausted retry budget and one outstanding attempt. -/
def constState : EngineState :=
  ⟨⟨[wJobC], 1, true⟩, ⟨[]⟩, [⟨wKey, 7, 2⟩]⟩

end DaprScheduler

namespace DaprHttp

/-- Embedded from `pkg/api/http/responses.go`: the classes of error value
`respondWithError` distinguishes — `messages.APIError`, `kitErrors.Error`
(both the `FromError` and the direct type-assertion branch respond
identically), and any other non-nil error.  Bodies carry the
already-marshalled `JSONErrorValue` bytes; `code` is the error code the
diagnostics metric records. -/
inductive GoErr where
  | apiError (httpCode : Nat) (jsonBody : List Nat) (code : String)
  | kitError (httpStatusCode : Nat) (jsonBody : List Nat) (code : String)
  | generic (msg : String)
deriving DecidableEq, Repr

/-- State of an `http.ResponseWriter` together with the diagnostics
error-code metric: response headers, the status code written (at most
once), the body chunks written, and the error codes recorded. -/
structure RespondState where
  headers : List (String × String)
  status : Option Nat
  body : List (List Nat)
  recordedErrorCodes : List String
deriving DecidableEq, Repr

/-- `w.Header().Get(key)`: empty string when the header is unset. -/
def headerGet (hs : List (String × String)) (key : String) : String :=
  match hs.find? (fun p => p.1 == key) with
  | some p => p.2
  | none => ""

/-- `w.Header().Set(key, v)`: replaces any existing value. -/
def headerSet (hs : List (String × String)) (key v : String) : List (String × String) :=
  (key, v) :: hs.filter (fun p => p.1 != key)

/-- `w.WriteHeader(code)`: the status code is written at most once. -/
def writeHeader (st : RespondState) (code : Nat) : RespondState :=
  match st.status with
  | some _ => st
  | none => { st with status := some code }

/-- `w.Write(data)`: appends a body chunk. -/
def writeBody (st : RespondState) (data : List Nat) : RespondState :=
  { st with body := st.body ++ [data] }

/-- Embedded from `pkg/diagnostics`: `RecordErrorCode(err)` records the
metric; per the caller's comment it succeeds only for `APIError` and
`kitErrors.Error` values. -/
def recordErrorCode (st : RespondState) (e : GoErr) : RespondState :=
  match e with
  | .apiError _ _ c => { st with recordedErrorCodes := st.recordedErrorCodes ++ [c] }
  | .kitError _ _ c => { st with recordedErrorCodes := st.recordedErrorCodes ++ [c] }
  | .generic _ => st

/-- Embedded from `pkg/api/http/responses.go` (`respondWithData`): default
the content type to JSON when unset, write the status code, then the
body. -/
def respondWithData (st : RespondState) (code : Nat) (data : List Nat) : RespondState :=
  let st₁ :=
    if headerGet st.headers "content-type" == "" then
      { st with headers := headerSet st.headers "content-type" "application/json" }
    else st
  writeBody (writeHeader st₁ code) data

/-- The body of the generic `NewErrorResponse(CommonGeneric, err.Error())`
response, as opaque bytes derived from the message. -/
def genericBody (msg : String) : List Nat :=
  msg.data.map Char.toNat

/-- Embedded from `pkg/api/http/responses.go` (`respondWithError`): a nil
error returns immediately; otherwise the error-code metric is recorded and
the matching branch (`APIError`, `kitErrors.Error`, or the generic
500 response) writes the response. -/
def respondWithError (st : RespondState) (err : Option GoErr) : RespondState :=
  match err with
  | none => st
  | some e =>
      let st₁ := recordErrorCode st e
      match e with
      | .apiError code body _ => respondWithData st₁ code body
      | .kitError code body _ => respondWithData st₁ code body
      | .generic msg => respondWithData st₁ 500 (genericBody msg)

end DaprHttp

namespace DaprScheduler

/-- Claim C9: `NextDue(now)` returns exactly the jobs whose due time is at
most `now`, ordered by due time ascending with ties broken by insertion
order (the `jobLE` order on (due, insertion index)), and the store's job
table is unchanged by the call — no job is removed. -/
theorem nextDue_spec (st : JobStore) (now : Nat) :
    List.Sorted jobLE (st.nextDue now) ∧
    List.Perm (st.nextDue now) (st.jobs.filter (fun j => decide (j.due ≤ now))) ∧
    (∀ j : Job, j ∈ st.nextDue now ↔ j ∈ st.jobs ∧ j.due ≤ now) ∧
    (st.nextDueCall now).2 = st := by
  refine ⟨List.sorted_insertionSort jobLE _, List.perm_insertionSort jobLE _, ?_, rfl⟩
  intro j
  unfold JobStore.nextDue
  rw [List.Perm.mem_iff (List.perm_insertionSort jobLE _)]
  simp [List.mem_filter]

/-- Claim C7: every write operation (`Schedule`, `Delete`, `MarkTriggered`)
issued against a replica that is not the elected leader returns
`NotLeader`, and no job mutation is applied — the engine state, job table
included, is unchanged. -/
theorem notLeader_rejects_writes (s : EngineState) (req : JobReq) (k k₂ k₃ : JobKey)
    (next : Option Nat) (h : s.store.isLeader = false) :
    s.store.schedule req = .error .notLeader ∧
    s.store.delete k = .error .notLeader ∧
    s.store.markTriggered k₂ next = .error .notLeader ∧
    applyEvent (.scheduleJob req) s = s ∧
    applyEvent (.deleteJob k₃) s = s := by
  refine ⟨?_, ?_, ?_, ?_, ?_⟩ <;>
    simp [JobStore.schedule, JobStore.delete, JobStore.markTriggered, applyEvent, h]

/-- Witness for C7: a concrete non-leader replica rejects all three write
operations and its state is unchanged. -/
theorem notLeader_rejects_writes_witness :
    (follower.store.isLeader = false) ∧
    (follower.store.schedule wReq = .error .notLeader ∧
     follower.store.delete wKey = .error .notLeader ∧
     follower.store.markTriggered wKey (some 4) = .error .notLeader ∧
     applyEvent (.scheduleJob wReq) follower = follower ∧
     applyEvent (.deleteJob wKey) follower = follower) :=
  ⟨by decide, notLeader_rejects_writes follower wReq wKey wKey wKey (some 4) (by decide)⟩

end DaprScheduler

namespace DaprHttp

/-- Claim C10: `respondWithError` called with a nil error returns
immediately without writing anything to the `ResponseWriter`: no status
code, headers, or body are set, and no error-code metric is recorded. -/
theorem respondWithError_nil_noop (st : RespondState) :
    (respondWithError st none).headers = st.headers ∧
    (respondWithError st none).status = st.status ∧
    (respondWithError st none).body = st.body ∧
    (respondWithError st none).recordedErrorCodes = st.recordedErrorCodes ∧
    respondWithError st none = st :=
  ⟨rfl, rfl, rfl, rfl, rfl⟩

end DaprHttp

namespace DaprScheduler

lemma inflight_filter_nodup (s : EngineState) (p : Attempt → Bool)
    (h : s.inflightKeys.Nodup) :
    ((s.inflight.filter p).map Attempt.jobKey).Nodup :=
  List.Nodup.sublist ((List.filter_sublist _).map _) h

lemma applyEvent_inflight_nodup (e : Event) (s : EngineState)
    (h : s.inflightKeys.Nodup) : (applyEvent e s).inflightKeys.Nodup := by
  cases e with
  | scheduleJob req =>
      simp only [applyEvent]
      cases s.store.schedule req <;> exact h
  | deleteJob k =>
      simp only [applyEvent]
      cases s.store.delete k <;> exact h
  | dispatch k now =>
      simp only [applyEvent]
      split
      · exact h
      · split
        · exact h
        · split
          · rename_i hcond
            split
            · exact List.nodup_cons.mpr ⟨hcond.2, h⟩
            · exact h
          · exact h
  | result k success now =>
      simp only [applyEvent]
      split
      · exact h
      · split
        · split
          · exact inflight_filter_nodup s _ h
          · split
            · exact inflight_filter_nodup s _ h
            · exact inflight_filter_nodup s _ h
        · exact h
  | register k ats hh now => exact inflight_filter_nodup s _ h
  | connError hh => exact h
  | pruneConn hh => exact inflight_filter_nodup s _ h
  | sweep now => exact inflight_filter_nodup s _ h

lemma run_inflight_nodup (es : List Event) :
    ∀ s : EngineState, s.inflightKeys.Nodup → (run es s).inflightKeys.Nodup := by
  induction es with
  | nil => intro s hs; exact hs
  | cons e t ih => intro s hs; exact ih _ (applyEvent_inflight_nodup e s hs)

/-- Claim C2: at every reachable state of the dispatch engine, at most one
trigger attempt per job key is outstanding (`AwaitingResult`): the
outstanding job keys are duplicate-free, so in particular a repeating job
never has two trigger attempts outstanding concurrently. -/
theorem single_inflight_per_key (es : List Event) (k : JobKey) :
    ((run es initState).inflightKeys).Nodup ∧
    (run es initState).inflight.countP (fun a => a.jobKey == k) ≤ 1 := by
  have hnd : ((run es initState).inflightKeys).Nodup :=
    run_inflight_nodup es initState (by simp [initState, EngineState.inflightKeys])
  refine ⟨hnd, ?_⟩
  have hcount : (run es initState).inflight.countP (fun a => a.jobKey == k) =
      ((run es initState).inflightKeys).count k := by
    unfold EngineState.inflightKeys
    rw [List.count_eq_countP, List.countP_map]
    rfl
  rw [hcount]
  exact List.nodup_iff_count_le_one.mp hnd k

/-- Claim C8: a due job whose target resolution returns `NoSubscriber` is
left due and untouched — the engine state (job record, attempt counter
included) is unchanged by the dispatch pass, so resolution is retried on
the next pass and the failure-policy engine is never invoked. -/
theorem noSubscriber_defers (s : EngineState) (k : JobKey) (j : Job) (now : Nat)
    (hleader : s.store.isLeader = true)
    (hj : s.store.findJob k = some j)
    (hdue : j.due ≤ now)
    (hnin : k ∉ s.inflightKeys)
    (hres : s.registry.resolve now k.connKey = none) :
    applyEvent (.dispatch k now) s = s ∧
    (applyEvent (.dispatch k now) s).store.findJob k = some j := by
  have hid : applyEvent (.dispatch k now) s = s := by
    unfold applyEvent
    simp [hleader, hj, hdue, hnin, hres]
  exact ⟨hid, by rw [hid]; exact hj⟩

/-- Witness for C8: a concrete leader with a due job and an empty registry
leaves its state unchanged on a dispatch pass. -/
theorem noSubscriber_defers_witness :
    (noSubState.store.isLeader = true ∧
     noSubState.store.findJob wKey = some (mkJob wReq 0) ∧
     (mkJob wReq 0).due ≤ 0 ∧
     wKey ∉ noSubState.inflightKeys ∧
     noSubState.registry.resolve 0 wKey.connKey = none) ∧
    (applyEvent (.dispatch wKey 0) noSubState = noSubState ∧
     (applyEvent (.dispatch wKey 0) noSubState).store.findJob wKey = some (mkJob wReq 0)) :=
  ⟨⟨by decide, by decide, by decide, by decide, by decide⟩,
   noSubscriber_defers noSubState wKey (mkJob wReq 0) 0
     (by decide) (by decide) (by decide) (by decide) (by decide)⟩

end DaprScheduler

namespace DaprScheduler

lemma live_false_mono (sub : Sub) (t₁ t₂ : Nat) (hle : t₁ ≤ t₂)
    (h : sub.live t₁ = false) : sub.live t₂ = false := by
  unfold Sub.live at h ⊢
  rcases Bool.and_eq_false_iff.mp h with h | h
  · exact Bool.and_eq_false_iff.mpr (Or.inl h)
  · refine Bool.and_eq_false_iff.mpr (Or.inr ?_)
    simp only [decide_eq_false_iff_not] at h ⊢
    omega

lemma resolve_eq_none_of_invalidated (r : Registry) (k : ConnKey) (now : Nat)
    (h : r.invalidated k now) : r.resolve now k = none := by
  unfold Registry.resolve
  have hf : r.subs.find? (fun sub => sub.key == k && sub.live now) = none := by
    rw [List.find?_eq_none]
    intro sub hs
    simp only [Bool.and_eq_true, beq_iff_eq, not_and]
    intro hk
    simp [h sub hs hk]
  rw [hf]
  rfl

lemma resolve_some_live (r : Registry) (now : Nat) (k : ConnKey) (h₂ : Nat)
    (h : r.resolve now k = some h₂) :
    ∃ sub ∈ r.subs, sub.key = k ∧ sub.handle = h₂ ∧ sub.closed = false ∧
      now ≤ sub.lastActive + keepAliveTimeout := by
  unfold Registry.resolve at h
  cases hf : r.subs.find? (fun sub => sub.key == k && sub.live now) with
  | none => rw [hf] at h; simp at h
  | some sub =>
      rw [hf] at h
      have hmem := List.mem_of_find?_eq_some hf
      have hp := List.find?_some hf
      simp only [Bool.and_eq_true, beq_iff_eq] at hp
      obtain ⟨hk, hlive⟩ := hp
      unfold Sub.live at hlive
      simp only [Bool.and_eq_true, Bool.not_eq_true', decide_eq_true_eq] at hlive
      refine ⟨sub, hmem, hk, ?_, hlive.1, hlive.2⟩
      simpa using h

lemma invalidated_closeHandle (r : Registry) (k : ConnKey) (now t h₂ : Nat)
    (h : r.invalidated k now) (hle : now ≤ t) :
    (r.closeHandle h₂).invalidated k t := by
  intro sub hs hk
  simp only [Registry.closeHandle, List.mem_map] at hs
  obtain ⟨sub₀, hs₀, heq⟩ := hs
  by_cases hh : (sub₀.handle == h₂) = true
  · rw [if_pos hh] at heq
    subst heq
    simp [Sub.live]
  · rw [if_neg hh] at heq
    subst heq
    exact live_false_mono sub₀ now t hle (h sub₀ hs₀ hk)

lemma invalidated_pruneHandle (r : Registry) (k : ConnKey) (now t h₂ : Nat)
    (h : r.invalidated k now) (hle : now ≤ t) :
    (r.pruneHandle h₂).invalidated k t := by
  intro sub hs hk
  exact live_false_mono sub now t hle (h sub (List.mem_of_mem_filter hs) hk)

lemma invalidated_sweep (r : Registry) (k : ConnKey) (now t t₂ : Nat)
    (h : r.invalidated k now) (hle : now ≤ t) :
    (r.sweep t₂).invalidated k t := by
  intro sub hs hk
  exact live_false_mono sub now t hle (h sub (List.mem_of_mem_filter hs) hk)

lemma invalidated_register_ne (r : Registry) (k k₂ : ConnKey) (ats : List String)
    (h₃ t₂ now t : Nat) (h : r.invalidated k now) (hle : now ≤ t) (hne : k₂ ≠ k) :
    (r.register k₂ ats h₃ t₂).invalidated k t := by
  intro sub hs hk
  simp only [Registry.register, List.mem_cons] at hs
  rcases hs with rfl | hs
  · exact absurd hk hne
  · exact live_false_mono sub now t hle (h sub (List.mem_of_mem_filter hs) hk)

lemma resolve_register_self (r : Registry) (k : ConnKey) (ats : List String) (h₃ now : Nat) :
    (r.register k ats h₃ now).resolve now k = some h₃ := by
  unfold Registry.register Registry.resolve
  rw [List.find?_cons_of_pos]
  · rfl
  · simp [Sub.live]

/-- Claim C3: after a registered subscription's handle is invalidated
(explicit close or keep-alive expiry), every subsequent `Resolve` call for
its key returns `NoSubscriber` — and this persists through transport
closes, prunes, keep-alive sweeps and registrations for other keys —
until a new `Register` call for the same key succeeds; moreover a
closed-but-not-yet-pruned entry is never returned by `Resolve`. -/
theorem resolve_after_invalidation (r : Registry) (k : ConnKey) (now now₂ : Nat)
    (h : r.invalidated k now) (hle : now ≤ now₂) :
    ResolveInvalidatedUntilRegister r k now now₂ :=
  ⟨resolve_eq_none_of_invalidated r k now h,
   fun h₂ => invalidated_closeHandle r k now now₂ h₂ h hle,
   fun h₂ => invalidated_pruneHandle r k now now₂ h₂ h hle,
   fun t => invalidated_sweep r k now now₂ t h hle,
   fun k₂ ats h₃ t₂ hne => invalidated_register_ne r k k₂ ats h₃ t₂ now now₂ h hle hne,
   fun r₂ t h₂ hres => resolve_some_live r₂ t k h₂ hres,
   fun ats h₃ => resolve_register_self r k ats h₃ now₂⟩

/-- Witness for C3: a concrete registry holding one closed-but-unpruned
entry for the key satisfies the whole contract. -/
theorem resolve_after_invalidation_witness :
    (closedReg.invalidated wConn 0 ∧ 0 ≤ 1) ∧
    ResolveInvalidatedUntilRegister closedReg wConn 0 1 :=
  ⟨⟨by decide, by decide⟩,
   resolve_after_invalidation closedReg wConn 0 1 (by decide) (by decide)⟩

end DaprScheduler

namespace DaprScheduler

lemma keyIs_eq_true (k : JobKey) (j : Job) (h : keyIs k j = true) : j.key = k := by
  unfold keyIs at h
  exact beq_iff_eq.mp h

lemma find?_keyIs_map (l : List Job) (k : JobKey) (f : Job → Job)
    (hk : ∀ x, keyIs k (f x) = keyIs k x) (old : Job)
    (h : l.find? (keyIs k) = some old) :
    (l.map f).find? (keyIs k) = some (f old) := by
  induction l with
  | nil => simp at h
  | cons a t ih =>
      by_cases ha : keyIs k a = true
      · rw [List.find?_cons_of_pos _ ha] at h
        obtain rfl : a = old := Option.some.inj h
        rw [List.map_cons, List.find?_cons_of_pos _ (by rw [hk a]; exact ha)]
      · rw [List.find?_cons_of_neg _ ha] at h
        rw [List.map_cons, List.find?_cons_of_neg _ (by rw [hk a]; exact ha)]
        exact ih h

lemma filter_keyIs_len_one (l : List Job) (k : JobKey)
    (hnd : (l.map Job.key).Nodup) (old : Job)
    (h : l.find? (keyIs k) = some old) :
    (l.filter (keyIs k)).length = 1 := by
  induction l with
  | nil => simp at h
  | cons a t ih =>
      simp only [List.map_cons, List.nodup_cons] at hnd
      by_cases ha : keyIs k a = true
      · have ht : t.filter (keyIs k) = [] := by
          rw [List.filter_eq_nil_iff]
          intro b hb hbk
          refine hnd.1 ?_
          rw [List.mem_map]
          exact ⟨b, hb, by rw [keyIs_eq_true k b hbk, keyIs_eq_true k a ha]⟩
        rw [List.filter_cons_of_pos ha, ht]
        rfl
      · rw [List.find?_cons_of_neg _ ha] at h
        rw [List.filter_cons_of_neg ha]
        exact ih hnd.2 h

lemma find?_append_none {α : Type} (p : α → Bool) (l₁ l₂ : List α)
    (h : l₁.find? p = none) : (l₁ ++ l₂).find? p = l₂.find? p := by
  induction l₁ with
  | nil => rfl
  | cons a t ih =>
      by_cases ha : p a = true
      · rw [List.find?_cons_of_pos _ ha] at h; cases h
      · rw [List.find?_cons_of_neg _ ha] at h
        rw [List.cons_append, List.find?_cons_of_neg _ ha]
        exact ih h

end DaprScheduler

namespace DaprScheduler

/-- Claim C6: `Schedule` is idempotent under identical repeated input: a
successful call leaves exactly one record for the key, and repeating the
same request is a no-op (the model carries no timestamp, so the repeat
returns the identical store). -/
theorem schedule_idempotent (st st₁ : JobStore) (req : JobReq)
    (hnd : (st.jobs.map Job.key).Nodup)
    (h : st.schedule req = .ok st₁) :
    st₁.schedule req = .ok st₁ ∧ st₁.countKey req.key = 1 := by
  unfold JobStore.schedule at h
  by_cases hld : st.isLeader = false
  · rw [if_pos hld] at h; cases h
  · rw [if_neg hld] at h
    by_cases hv : req.schedule.valid = false
    · rw [if_pos hv] at h; cases h
    · rw [if_neg hv] at h
      cases hf : st.findJob req.key with
      | some old =>
          rw [hf] at h
          injection h with h₁
          have hjobs : st₁.jobs = st.jobs.map (upsertJob req old.idx) := by
            rw [← h₁]
          have hlead : st₁.isLeader = st.isLeader := by
            rw [← h₁]
          have hold : keyIs req.key old = true := List.find?_some hf
          have hk : ∀ x, keyIs req.key (upsertJob req old.idx x) = keyIs req.key x := by
            intro x
            unfold upsertJob
            by_cases hx : keyIs req.key x = true
            · rw [if_pos hx, hx]
              unfold keyIs mkJob
              simp
            · rw [if_neg hx]
          have hfold : upsertJob req old.idx old = mkJob req old.idx := by
            unfold upsertJob
            rw [if_pos hold]
          have hpoint : ∀ x, upsertJob req old.idx (upsertJob req old.idx x)
              = upsertJob req old.idx x := by
            intro x
            by_cases hx : keyIs req.key x = true
            · unfold upsertJob
              rw [if_pos hx, if_pos (by unfold keyIs mkJob; simp)]
            · unfold upsertJob
              rw [if_neg hx, if_neg hx]
          have hfj : st₁.findJob req.key = some (mkJob req old.idx) := by
            unfold JobStore.findJob
            rw [hjobs, find?_keyIs_map st.jobs req.key _ hk old hf, hfold]
          refine ⟨?_, ?_⟩
          · unfold JobStore.schedule
            rw [hlead, if_neg hld, if_neg hv, hfj]
            have hX : st₁.jobs.map (upsertJob req (mkJob req old.idx).idx) = st₁.jobs := by
              have hidx : (mkJob req old.idx).idx = old.idx := rfl
              rw [hidx, hjobs, List.map_map]
              exact List.map_congr_left (fun x _ => hpoint x)
            show Except.ok
                { jobs := st₁.jobs.map (upsertJob req (mkJob req old.idx).idx)
                  nextIdx := st₁.nextIdx
                  isLeader := st.isLeader } = Except.ok st₁
            rw [hX, ← hlead]
          · unfold JobStore.countKey
            rw [hjobs, List.filter_map, List.length_map]
            rw [show List.filter (keyIs req.key ∘ upsertJob req old.idx) st.jobs
                = List.filter (keyIs req.key) st.jobs from
                List.filter_congr (fun x _ => hk x)]
            exact filter_keyIs_len_one st.jobs req.key hnd old hf
      | none =>
          rw [hf] at h
          injection h with h₁
          have hjobs : st₁.jobs = st.jobs ++ [mkJob req st.nextIdx] := by
            rw [← h₁]
          have hlead : st₁.isLeader = st.isLeader := by
            rw [← h₁]
          have hnone : ∀ x ∈ st.jobs, ¬(keyIs req.key x = true) := List.find?_eq_none.mp hf
          have hmk : keyIs req.key (mkJob req st.nextIdx) = true := by
            unfold keyIs mkJob
            simp
          have hfj : st₁.findJob req.key = some (mkJob req st.nextIdx) := by
            unfold JobStore.findJob
            rw [hjobs, find?_append_none _ st.jobs [mkJob req st.nextIdx]
              (List.find?_eq_none.mpr hnone)]
            rw [List.find?_cons_of_pos _ hmk]
          refine ⟨?_, ?_⟩
          · unfold JobStore.schedule
            rw [hlead, if_neg hld, if_neg hv, hfj]
            have hX : st₁.jobs.map (upsertJob req (mkJob req st.nextIdx).idx) = st₁.jobs := by
              have hidx : (mkJob req st.nextIdx).idx = st.nextIdx := rfl
              rw [hidx, hjobs, List.map_append]
              have hmap₁ : st.jobs.map (upsertJob req st.nextIdx) = st.jobs := by
                conv_rhs => rw [← List.map_id st.jobs]
                apply List.map_congr_left
                intro x hx
                unfold upsertJob
                rw [if_neg (hnone x hx)]
                rfl
              have hmap₂ : [mkJob req st.nextIdx].map (upsertJob req st.nextIdx)
                  = [mkJob req st.nextIdx] := by
                simp only [List.map_cons, List.map_nil]
                unfold upsertJob
                rw [if_pos hmk]
              rw [hmap₁, hmap₂]
            show Except.ok
                { jobs := st₁.jobs.map (upsertJob req (mkJob req st.nextIdx).idx)
                  nextIdx := st₁.nextIdx
                  isLeader := st.isLeader } = Except.ok st₁
            rw [hX, ← hlead]
          · unfold JobStore.countKey
            rw [hjobs, List.filter_append, List.filter_eq_nil_iff.mpr hnone,
              List.filter_cons_of_pos hmk]
            rfl

/-- Witness for C6: scheduling a concrete request into the empty leader
store and repeating the identical call is a no-op leaving one record. -/
theorem schedule_idempotent_witness :
    ((initState.store.jobs.map Job.key).Nodup ∧
     (initState.store.schedule wReq = .ok ⟨[mkJob wReq 0], 1, true⟩)) ∧
    ((⟨[mkJob wReq 0], 1, true⟩ : JobStore).schedule wReq = .ok ⟨[mkJob wReq 0], 1, true⟩ ∧
     (⟨[mkJob wReq 0], 1, true⟩ : JobStore).countKey wReq.key = 1) :=
  ⟨⟨by decide, by rfl⟩,
   schedule_idempotent initState.store ⟨[mkJob wReq 0], 1, true⟩ wReq (by decide) (by rfl)⟩

end DaprScheduler

namespace DaprScheduler

lemma findJob_none_iff (st : JobStore) (k : JobKey) :
    st.findJob k = none ↔ ∀ j ∈ st.jobs, j.key ≠ k := by
  unfold JobStore.findJob
  rw [List.find?_eq_none]
  constructor
  · intro h j hj hk
    apply h j hj
    unfold keyIs
    rw [hk]
    exact beq_self_eq_true k
  · intro h j hj hp
    exact h j hj (keyIs_eq_true k j hp)

lemma mem_schedule_ok (st st₂ : JobStore) (req : JobReq) (x : Job)
    (h : st.schedule req = .ok st₂) (hx : x ∈ st₂.jobs) :
    x.key = req.key ∨ x ∈ st.jobs := by
  unfold JobStore.schedule at h
  by_cases hld : st.isLeader = false
  · rw [if_pos hld] at h; cases h
  · rw [if_neg hld] at h
    by_cases hv : req.schedule.valid = false
    · rw [if_pos hv] at h; cases h
    · rw [if_neg hv] at h
      cases hf : st.findJob req.key with
      | some old =>
          rw [hf] at h
          injection h with h₁
          have hjobs : st₂.jobs = st.jobs.map (upsertJob req old.idx) := by rw [← h₁]
          rw [hjobs, List.mem_map] at hx
          obtain ⟨y, hy, hxy⟩ := hx
          unfold upsertJob at hxy
          by_cases hk : keyIs req.key y = true
          · rw [if_pos hk] at hxy
            left
            rw [← hxy]
            rfl
          · rw [if_neg hk] at hxy
            right
            rw [← hxy]
            exact hy
      | none =>
          rw [hf] at h
          injection h with h₁
          have hjobs : st₂.jobs = st.jobs ++ [mkJob req st.nextIdx] := by rw [← h₁]
          rw [hjobs, List.mem_append] at hx
          rcases hx with hx | hx
          · right; exact hx
          · left
            rw [List.mem_singleton] at hx
            rw [hx]
            rfl

lemma mem_delete_ok (st st₂ : JobStore) (k₂ : JobKey) (x : Job)
    (h : st.delete k₂ = .ok st₂) (hx : x ∈ st₂.jobs) : x ∈ st.jobs := by
  unfold JobStore.delete at h
  by_cases hld : st.isLeader = false
  · rw [if_pos hld] at h; cases h
  · rw [if_neg hld] at h
    injection h with h₁
    have hjobs : st₂.jobs = st.jobs.filter (fun j => j.key != k₂) := by rw [← h₁]
    rw [hjobs] at hx
    exact List.mem_of_mem_filter hx

lemma mem_map_setFun (l : List Job) (k₂ : JobKey) (jNew x : Job)
    (hx : x ∈ l.map (setFun k₂ jNew)) : x = jNew ∨ x ∈ l := by
  rw [List.mem_map] at hx
  obtain ⟨y, hy, hxy⟩ := hx
  unfold setFun at hxy
  by_cases hk : keyIs k₂ y = true
  · rw [if_pos hk] at hxy
    left
    exact hxy.symm
  · rw [if_neg hk] at hxy
    right
    rw [← hxy]
    exact hy

lemma nextOnSuccess_key (j j₂ : Job) (now : Nat) (h : j.nextOnSuccess now = some j₂) :
    j₂.key = j.key := by
  unfold Job.nextOnSuccess at h
  cases hs : j.schedule with
  | oneShot d => rw [hs] at h; cases h
  | repeating iv reps =>
      rw [hs] at h
      cases reps with
      | none =>
          injection h with h₁
          rw [← h₁]
      | some n =>
          cases n with
          | zero => cases h
          | succ m =>
              cases m with
              | zero => cases h
              | succ m₂ =>
                  injection h with h₁
                  rw [← h₁]

lemma failurePolicyDecide_key (j j₂ : Job) (now : Nat)
    (h : failurePolicyDecide j now = some j₂) : j₂.key = j.key := by
  cases hp : j.policy with
  | drop =>
      have hval : failurePolicyDecide j now = none := by
        unfold failurePolicyDecide
        rw [hp]
      rw [hval] at h
      cases h
  | unset =>
      have hval : failurePolicyDecide j now =
          some { j with due := now + defaultRetryInterval, attempts := j.attempts + 1 } := by
        unfold failurePolicyDecide
        rw [hp]
      rw [hval] at h
      injection h with h₁
      rw [← h₁]
  | constant iv mr =>
      have hval : failurePolicyDecide j now =
          if j.attempts < mr then
            some { j with due := now + iv, attempts := j.attempts + 1 } else none := by
        unfold failurePolicyDecide
        rw [hp]
      rw [hval] at h
      by_cases hlt : j.attempts < mr
      · rw [if_pos hlt] at h
        injection h with h₁
        rw [← h₁]
      · rw [if_neg hlt] at h; cases h

lemma not_mem_inflightKeys_filter (l : List Attempt) (p : Attempt → Bool) (k : JobKey)
    (h : k ∉ l.map Attempt.jobKey) : k ∉ (l.filter p).map Attempt.jobKey := by
  intro hc
  apply h
  rw [List.mem_map] at hc
  obtain ⟨a, ha, hak⟩ := hc
  rw [List.mem_map]
  exact ⟨a, List.mem_of_mem_filter ha, hak⟩

lemma not_mem_filter_ne_keys (l : List Attempt) (k : JobKey) :
    k ∉ (l.filter (fun a => a.jobKey != k)).map Attempt.jobKey := by
  intro hc
  rw [List.mem_map] at hc
  obtain ⟨a, ha, hak⟩ := hc
  have hp := List.of_mem_filter ha
  rw [hak] at hp
  simp at hp

lemma result_failed_state (s : EngineState) (k : JobKey) (j j₂ : Job) (now : Nat)
    (hleader : s.store.isLeader = true)
    (hj : s.store.findJob k = some j)
    (hin : k ∈ s.inflightKeys)
    (hd : failurePolicyDecide j now = some j₂) :
    applyEvent (.result k false now) s =
      ⟨s.store.setJob k j₂, s.registry, s.inflight.filter (fun a => a.jobKey != k)⟩ := by
  simp [applyEvent, hleader, hin, hj, hd]

lemma result_drop_state (s : EngineState) (k : JobKey) (j : Job) (now : Nat)
    (hleader : s.store.isLeader = true)
    (hj : s.store.findJob k = some j)
    (hin : k ∈ s.inflightKeys)
    (hd : failurePolicyDecide j now = none) :
    applyEvent (.result k false now) s =
      ⟨s.store.removeJob k, s.registry, s.inflight.filter (fun a => a.jobKey != k)⟩ := by
  simp [applyEvent, hleader, hin, hj, hd]

lemma result_success_oneShot_state (s : EngineState) (k : JobKey) (j : Job) (now d : Nat)
    (hleader : s.store.isLeader = true)
    (hj : s.store.findJob k = some j)
    (hin : k ∈ s.inflightKeys)
    (hsched : j.schedule = .oneShot d) :
    applyEvent (.result k true now) s =
      ⟨s.store.removeJob k, s.registry, s.inflight.filter (fun a => a.jobKey != k)⟩ := by
  have hns : j.nextOnSuccess now = none := by
    unfold Job.nextOnSuccess
    rw [hsched]
  simp [applyEvent, hleader, hin, hj, hns]

lemma dispatch_state (s : EngineState) (k : JobKey) (j : Job) (t h : Nat)
    (hleader : s.store.isLeader = true)
    (hj : s.store.findJob k = some j)
    (hdue : j.due ≤ t)
    (hnin : k ∉ s.inflightKeys)
    (hres : s.registry.resolve t k.connKey = some h) :
    applyEvent (.dispatch k t) s = ⟨s.store, s.registry, ⟨k, h, j.attempts⟩ :: s.inflight⟩ := by
  simp [applyEvent, hleader, hj, hdue, hnin, hres]

lemma findJob_setJob_self (st : JobStore) (k : JobKey) (j j₂ : Job)
    (hj : st.findJob k = some j) (hk₂ : keyIs k j₂ = true) :
    (st.setJob k j₂).findJob k = some j₂ := by
  have hk : ∀ x, keyIs k (setFun k j₂ x) = keyIs k x := by
    intro x
    unfold setFun
    by_cases hx : keyIs k x = true
    · rw [if_pos hx, hx, hk₂]
    · rw [if_neg hx]
  have hmap := find?_keyIs_map st.jobs k (setFun k j₂) hk j hj
  have hsf : setFun k j₂ j = j₂ := by
    unfold setFun
    rw [if_pos (List.find?_some hj)]
  rw [hsf] at hmap
  exact hmap

lemma findJob_removeJob (st : JobStore) (k : JobKey) :
    (st.removeJob k).findJob k = none := by
  unfold JobStore.removeJob JobStore.findJob
  rw [List.find?_eq_none]
  intro x hx
  have hp := List.of_mem_filter hx
  simp only [Bool.not_eq_true'] at hp
  rw [hp]
  simp

lemma resolve_register_at (r : Registry) (kc : ConnKey) (ats : List String)
    (hNew now t : Nat) (htl : t ≤ now + keepAliveTimeout) :
    (r.register kc ats hNew now).resolve t kc = some hNew := by
  unfold Registry.register Registry.resolve
  rw [List.find?_cons_of_pos]
  · rfl
  · simp [Sub.live, htl]

end DaprScheduler

namespace DaprScheduler

lemma applyEvent_jobGone (e : Event) (s : EngineState) (k : JobKey)
    (h : s.jobGone k) (he : e.schedulesKey k = false) :
    (applyEvent e s).jobGone k := by
  obtain ⟨hs, hi⟩ := h
  have hsm : ∀ x ∈ s.store.jobs, x.key ≠ k := (findJob_none_iff _ _).mp hs
  cases e with
  | scheduleJob req =>
      have hreq : req.key ≠ k := by
        simp only [Event.schedulesKey] at he
        intro hc
        rw [hc] at he
        simp at he
      simp only [applyEvent]
      cases hok : s.store.schedule req with
      | ok st₂ =>
          refine ⟨(findJob_none_iff _ _).mpr ?_, hi⟩
          intro x hx
          rcases mem_schedule_ok s.store st₂ req x hok hx with hxk | hxm
          · rw [hxk]; exact hreq
          · exact hsm x hxm
      | error er => exact ⟨hs, hi⟩
  | deleteJob k₂ =>
      simp only [applyEvent]
      cases hok : s.store.delete k₂ with
      | ok st₂ =>
          refine ⟨(findJob_none_iff _ _).mpr ?_, hi⟩
          intro x hx
          exact hsm x (mem_delete_ok s.store st₂ k₂ x hok hx)
      | error er => exact ⟨hs, hi⟩
  | dispatch k₂ now =>
      simp only [applyEvent]
      split
      · exact ⟨hs, hi⟩
      · split
        · exact ⟨hs, hi⟩
        · rename_i j hj
          split
          · split
            · refine ⟨hs, ?_⟩
              have hk₂ : k₂ ≠ k := by
                intro hc
                rw [hc, hs] at hj
                cases hj
              intro hc
              rcases List.mem_cons.mp hc with hc | hc
              · exact hk₂ hc.symm
              · exact hi hc
            · exact ⟨hs, hi⟩
          · exact ⟨hs, hi⟩
  | result k₂ success now =>
      simp only [applyEvent]
      split
      · exact ⟨hs, hi⟩
      · split
        · have hifk : k ∉ (s.inflight.filter (fun a => a.jobKey != k₂)).map Attempt.jobKey :=
            not_mem_inflightKeys_filter _ _ k hi
          split
          · exact ⟨hs, hifk⟩
          · rename_i j hj
            have hk₂ : k₂ ≠ k := by
              intro hc
              rw [hc, hs] at hj
              cases hj
            have hjkey : j.key = k₂ := keyIs_eq_true k₂ j (List.find?_some hj)
            split
            · rename_i j₂ hj₂
              have hj₂key : j₂.key = j.key := by
                by_cases hsucc : success = true
                · rw [if_pos hsucc] at hj₂
                  exact nextOnSuccess_key j j₂ now hj₂
                · rw [if_neg hsucc] at hj₂
                  exact failurePolicyDecide_key j j₂ now hj₂
              refine ⟨(findJob_none_iff _ _).mpr ?_, hifk⟩
              intro x hx
              rcases mem_map_setFun s.store.jobs k₂ j₂ x hx with rfl | hxm
              · rw [hj₂key, hjkey]
                exact hk₂
              · exact hsm x hxm
            · refine ⟨(findJob_none_iff _ _).mpr ?_, hifk⟩
              intro x hx
              exact hsm x (List.mem_of_mem_filter hx)
        · exact ⟨hs, hi⟩
  | register k₂ ats hh now =>
      exact ⟨hs, not_mem_inflightKeys_filter _ _ k hi⟩
  | connError hh => exact ⟨hs, hi⟩
  | pruneConn hh => exact ⟨hs, not_mem_inflightKeys_filter _ _ k hi⟩
  | sweep now => exact ⟨hs, not_mem_inflightKeys_filter _ _ k hi⟩

lemma run_jobGone (es : List Event) (s : EngineState) (k : JobKey)
    (h : s.jobGone k) (he : ∀ e ∈ es, e.schedulesKey k = false) :
    (run es s).jobGone k := by
  induction es generalizing s with
  | nil => exact h
  | cons e t ih =>
      exact ih (applyEvent e s)
        (applyEvent_jobGone e s k h (he e (List.mem_cons_self e t)))
        (fun e₂ h₂ => he e₂ (List.mem_cons_of_mem e h₂))

end DaprScheduler

namespace DaprScheduler

/-- Claim C1: for a one-shot job with the default (unset) failure policy
and an outstanding trigger attempt, every `FAILED` result re-enters the
same job for redelivery (and dispatching it once due creates a fresh
attempt), while the first `SUCCESS` result removes the job and it is never
triggered again by any later events that do not re-schedule the key,
regardless of how many `FAILED` results preceded it. -/
theorem oneShot_default_retry (s : EngineState) (k : JobKey) (j : Job) (now d : Nat)
    (hleader : s.store.isLeader = true)
    (hj : s.store.findJob k = some j)
    (hsched : j.schedule = .oneShot d)
    (hpol : j.policy = .unset)
    (hin : k ∈ s.inflightKeys) :
    OneShotDefaultPolicyProp s k j now := by
  have hjk : j.key = k := keyIs_eq_true k j (List.find?_some hj)
  have hd : failurePolicyDecide j now =
      some { j with due := now + defaultRetryInterval, attempts := j.attempts + 1 } := by
    unfold failurePolicyDecide
    rw [hpol]
  have hF := result_failed_state s k j
      { j with due := now + defaultRetryInterval, attempts := j.attempts + 1 }
      now hleader hj hin hd
  constructor
  · refine ⟨{ j with due := now + defaultRetryInterval, attempts := j.attempts + 1 },
      ?_, rfl, rfl, rfl, rfl, rfl, ?_, ?_⟩
    · rw [hF]
      exact findJob_setJob_self s.store k j _ hj (by unfold keyIs; simp [hjk])
    · rw [hF]
      exact not_mem_filter_ne_keys s.inflight k
    · intro t h hduet hres
      rw [hF] at hres ⊢
      rw [dispatch_state
          ⟨s.store.setJob k { j with due := now + defaultRetryInterval, attempts := j.attempts + 1 },
            s.registry, s.inflight.filter (fun a => a.jobKey != k)⟩
          k { j with due := now + defaultRetryInterval, attempts := j.attempts + 1 } t h
          hleader
          (findJob_setJob_self s.store k j _ hj (by unfold keyIs; simp [hjk]))
          hduet
          (not_mem_filter_ne_keys s.inflight k)
          hres]
      exact List.mem_cons_self _ _
  · have hS := result_success_oneShot_state s k j now d hleader hj hin hsched
    have hgone : (applyEvent (.result k true now) s).jobGone k := by
      rw [hS]
      exact ⟨findJob_removeJob s.store k, not_mem_filter_ne_keys s.inflight k⟩
    exact ⟨hgone, fun es hes => run_jobGone es _ k hgone hes⟩

/-- Witness for C1: the concrete `failsecond` scenario state (one-shot
job, unset policy, attempt outstanding on a live subscriber). -/
theorem oneShot_default_retry_witness :
    (oneShotState.store.isLeader = true ∧
     oneShotState.store.findJob wKey = some (mkJob wReq 0) ∧
     (mkJob wReq 0).schedule = .oneShot 0 ∧
     (mkJob wReq 0).policy = .unset ∧
     wKey ∈ oneShotState.inflightKeys) ∧
    OneShotDefaultPolicyProp oneShotState wKey (mkJob wReq 0) 5 :=
  ⟨⟨by decide, by decide, by decide, by decide, by decide⟩,
   oneShot_default_retry oneShotState wKey (mkJob wReq 0) 5 0
     (by decide) (by decide) (by decide) (by decide) (by decide)⟩

/-- Claim C5: for a job with failure policy `Constant(interval, maxRetries
:= 2)`, each of the first two `FAILED` results consumes one unit of the
persisted retry budget and re-enters the job, and the `FAILED` result
arriving with the budget exhausted (the third total failed attempt) drops
the job for good — a fourth trigger attempt never occurs. -/
theorem constant_policy_bounded (s : EngineState) (k : JobKey) (j : Job) (iv now : Nat)
    (hleader : s.store.isLeader = true)
    (hj : s.store.findJob k = some j)
    (hpol : j.policy = .constant iv 2)
    (hin : k ∈ s.inflightKeys) :
    ConstantPolicyBoundedProp s k j iv now := by
  have hjk : j.key = k := keyIs_eq_true k j (List.find?_some hj)
  constructor
  · intro hlt
    have hd : failurePolicyDecide j now =
        some { j with due := now + iv, attempts := j.attempts + 1 } := by
      unfold failurePolicyDecide
      rw [hpol]
      simp [hlt]
    have hF := result_failed_state s k j
        { j with due := now + iv, attempts := j.attempts + 1 } now hleader hj hin hd
    refine ⟨{ j with due := now + iv, attempts := j.attempts + 1 },
      ?_, rfl, rfl, rfl, rfl, ?_⟩
    · rw [hF]
      exact findJob_setJob_self s.store k j _ hj (by unfold keyIs; simp [hjk])
    · rw [hF]
      exact not_mem_filter_ne_keys s.inflight k
  · intro hat
    have hd : failurePolicyDecide j now = none := by
      unfold failurePolicyDecide
      rw [hpol]
      simp [hat]
    have hF := result_drop_state s k j now hleader hj hin hd
    have hgone : (applyEvent (.result k false now) s).jobGone k := by
      rw [hF]
      exact ⟨findJob_removeJob s.store k, not_mem_filter_ne_keys s.inflight k⟩
    exact ⟨hgone, fun es hes => run_jobGone es _ k hgone hes⟩

/-- Witness for C5: a concrete job with `Constant(1, 2)` policy whose
budget is exhausted; the next `FAILED` result drops it for good. -/
theorem constant_policy_bounded_witness :
    (constState.store.isLeader = true ∧
     constState.store.findJob wKey = some wJobC ∧
     wJobC.policy = .constant 1 2 ∧
     wKey ∈ constState.inflightKeys) ∧
    ConstantPolicyBoundedProp constState wKey wJobC 1 5 :=
  ⟨⟨by decide, by decide, by decide, by decide⟩,
   constant_policy_bounded constState wKey wJobC 1 5
     (by decide) (by decide) (by decide) (by decide)⟩

/-- Claim C4: a `Register` for a key already held supersedes the prior
subscription: a trigger attempt in flight to a superseded handle is
treated as undelivered (removed from the outstanding set) while its job
record is untouched, and redispatching the due job delivers it to the new
handle — no in-flight trigger is lost through supersession. -/
theorem register_supersedes_redispatch (s : EngineState) (kc : ConnKey) (ats : List String)
    (hNew now t : Nat) (a : Attempt) (j : Job)
    (ha : a ∈ s.inflight)
    (hconn : a.jobKey.connKey = kc)
    (hold : a.handle ∈ (s.registry.subs.filter (fun sub => sub.key == kc)).map Sub.handle)
    (hj : s.store.findJob a.jobKey = some j)
    (hnd : s.inflightKeys.Nodup)
    (hleader : s.store.isLeader = true)
    (hdue : j.due ≤ t)
    (htl : t ≤ now + keepAliveTimeout) :
    RegisterSupersedesProp s kc ats hNew now t a j := by
  have h1 : a ∉ (applyEvent (.register kc ats hNew now) s).inflight := by
    intro hc
    have hc₂ : a ∈ s.inflight.filter (fun x => decide (x.handle ∉
        ((s.registry.subs.filter (fun sub => sub.key == kc)).map Sub.handle))) := hc
    have hp := List.of_mem_filter hc₂
    rw [decide_eq_true_iff] at hp
    exact hp hold
  have h3 : a.jobKey ∉ (applyEvent (.register kc ats hNew now) s).inflightKeys := by
    intro hc
    have hc₂ : a.jobKey ∈ (s.inflight.filter (fun x => decide (x.handle ∉
        ((s.registry.subs.filter (fun sub => sub.key == kc)).map Sub.handle)))).map
          Attempt.jobKey := hc
    obtain ⟨b, hb, hbk⟩ := List.mem_map.mp hc₂
    have hba : b = a := List.inj_on_of_nodup_map hnd (List.mem_of_mem_filter hb) ha hbk
    rw [hba] at hb
    exact h1 hb
  have h4 : (applyEvent (.register kc ats hNew now) s).registry.resolve t kc = some hNew :=
    resolve_register_at s.registry kc ats hNew now t htl
  refine ⟨h1, rfl, h3, h4, ?_⟩
  rw [dispatch_state (applyEvent (.register kc ats hNew now) s) a.jobKey j t hNew
      hleader hj hdue h3 (by rw [hconn]; exact h4)]
  exact List.mem_cons_self _ _

/-- Witness for C4: a concrete state with one attempt in flight to handle
7 for the key; registering handle 8 for the same connection key requeues
and redispatches it to handle 8. -/
theorem register_supersedes_redispatch_witness :
    ((⟨wKey, 7, 0⟩ : Attempt) ∈ oneShotState.inflight ∧
     wKey.connKey = wConn ∧
     (7 : Nat) ∈ (oneShotState.registry.subs.filter (fun sub => sub.key == wConn)).map Sub.handle ∧
     oneShotState.store.findJob wKey = some (mkJob wReq 0) ∧
     oneShotState.inflightKeys.Nodup ∧
     oneShotState.store.isLeader = true ∧
     (mkJob wReq 0).due ≤ 1 ∧
     (1 : Nat) ≤ 1 + keepAliveTimeout) ∧
    RegisterSupersedesProp oneShotState wConn [] 8 1 1 ⟨wKey, 7, 0⟩ (mkJob wReq 0) :=
  ⟨⟨by decide, by decide, by decide, by decide, by decide, by decide, by decide, by decide⟩,
   register_supersedes_redispatch oneShotState wConn [] 8 1 1 ⟨wKey, 7, 0⟩ (mkJob wReq 0)
     (by decide) (by decide) (by decide) (by decide) (by decide) (by decide)
     (by decide) (by decide)⟩

end DaprScheduler
